import Mathlib

/-!
# Verification of the common-svc-lib task-dispatch subsystem

Shallow embedding of the message-broker abstraction of `common-svc-lib`:
signed task publishing (`TaskPublisher`), signature-verifying consumption
(`BaseConsumer` / `SecureConsumer`), the Redis-backed retry store
(`RetryManager`), the worker routing/retry layer (`Worker`), topology
assertion (`assertTopology` / `BasePublisher.setupTopology`) and the
publisher registry (`getPublisher`).

JavaScript runtime values exchanged as message bodies are modelled by the
`Json` inductive below; `JSON.stringify` is modelled by the executable
serializer `serJson` (stable insertion-order keys, exactly as the V8
builtin behaves on parsed/constructed objects; escaping of control
characters besides quote and backslash is elided, which affects neither
determinism nor injectivity).  The central serialization fact used by the
signature claims — that the serializer is unambiguous, hence injective —
is proved, not assumed.
-/

namespace CommonSvc

/-- Model of a JSON value / JS runtime value transported in message bodies.
Object fields are an ordered association list, mirroring JS insertion order.
Properties holding `undefined` are not modelled: the library always builds
objects whose properties are defined JSON values, and `JSON.stringify` drops
`undefined`-valued properties, so such objects serialize like an object
without the property. -/
inductive Json where
  | null : Json
  | bool : Bool → Json
  | num : Int → Json
  | str : String → Json
  | arr : List Json → Json
  | obj : List (String × Json) → Json
deriving Repr

/-- The decimal digit characters, used by the number serializer. -/
def digitChar (d : Nat) : Char :=
  match d with
  | 0 => '0' | 1 => '1' | 2 => '2' | 3 => '3' | 4 => '4'
  | 5 => '5' | 6 => '6' | 7 => '7' | 8 => '8' | _ => '9'

/-- Fuel-driven decimal digit printer (fuel makes the recursion structural). -/
def natDigitsAux : Nat → Nat → List Char
  | 0, _ => []
  | fuel + 1, n =>
    if n < 10 then [digitChar n]
    else natDigitsAux fuel (n / 10) ++ [digitChar (n % 10)]

/-- Decimal digits of a natural number, most significant first. -/
def natDigits (n : Nat) : List Char := natDigitsAux (n + 1) n

theorem natDigitsAux_congr :
    ∀ n fuel fuel', n < fuel → n < fuel' →
      natDigitsAux fuel n = natDigitsAux fuel' n := by
  intro n
  induction n using Nat.strong_induction_on with
  | _ n ih =>
    intro fuel fuel' hf hf'
    cases fuel with
    | zero => omega
    | succ f =>
      cases fuel' with
      | zero => omega
      | succ f' =>
        by_cases h10 : n < 10
        · simp [natDigitsAux, h10]
        · have hdiv : n / 10 < n := Nat.div_lt_self (by omega) (by omega)
          simp only [natDigitsAux, h10, if_false]
          rw [ih (n / 10) hdiv f f' (by omega) (by omega)]

/-- Unfolding rule for `natDigits` presented without fuel. -/
theorem natDigits_eq (n : Nat) :
    natDigits n =
      if n < 10 then [digitChar n]
      else natDigits (n / 10) ++ [digitChar (n % 10)] := by
  by_cases h10 : n < 10
  · simp [natDigits, natDigitsAux, h10]
  · have hdiv : n / 10 < n := Nat.div_lt_self (by omega) (by omega)
    simp only [natDigits, natDigitsAux, h10, if_false]
    rw [natDigitsAux_congr (n / 10) n (n / 10 + 1) (by omega) (by omega)]
    simp [natDigitsAux]

/-- Character list printed by `JSON.stringify` for an integer
(JS prints integral numbers with no decimal point or exponent). -/
def intChars (n : Int) : List Char :=
  if n < 0 then '-' :: natDigits n.natAbs else natDigits n.toNat

/-- JSON string escaping of a single character (quote and backslash). -/
def escChar (c : Char) : List Char :=
  if c = '"' ∨ c = '\\' then ['\\', c] else [c]

/-- JSON string escaping of a character list. -/
def escList : List Char → List Char
  | [] => []
  | c :: cs => escChar c ++ escList cs

/-- Serialization of a JSON string literal: quote, escaped body, quote. -/
def serStrChars (s : String) : List Char :=
  '"' :: (escList s.data ++ ['"'])

/-- The characters of the `null` keyword. -/
def nullChars : List Char := ['n', 'u', 'l', 'l']

/-- The characters of the `true` / `false` keyword. -/
def boolChars (b : Bool) : List Char :=
  if b then ['t', 'r', 'u', 'e'] else ['f', 'a', 'l', 's', 'e']

mutual

/-- Model of `JSON.stringify` on `Json` values (insertion-order keys,
no whitespace), as used by `TaskPublisher.signMessage`,
`SecureConsumer.verifySignature` and `RetryManager.scheduleRetry`. -/
def serJson : Json → List Char
  | .null => nullChars
  | .bool b => boolChars b
  | .num n => intChars n
  | .str s => serStrChars s
  | .arr xs => '[' :: (serElems xs ++ [']'])
  | .obj kvs => '{' :: (serFields kvs ++ ['}'])

/-- Comma-separated serialization of array elements. -/
def serElems : List Json → List Char
  | [] => []
  | [x] => serJson x
  | x :: xs => serJson x ++ ',' :: serElems xs

/-- Comma-separated serialization of object fields (quoted key, colon, value). -/
def serFields : List (String × Json) → List Char
  | [] => []
  | [(k, v)] => serStrChars k ++ ':' :: serJson v
  | (k, v) :: kvs => serStrChars k ++ ':' :: serJson v ++ ',' :: serFields kvs

end

mutual

/-- Boolean equality on `Json` (the nested inductive blocks deriving). -/
def beqJson : Json → Json → Bool
  | .null, .null => true
  | .bool a, .bool b => a == b
  | .num a, .num b => a == b
  | .str a, .str b => a == b
  | .arr a, .arr b => beqArr a b
  | .obj a, .obj b => beqObj a b
  | _, _ => false

/-- Boolean equality on lists of `Json`. -/
def beqArr : List Json → List Json → Bool
  | [], [] => true
  | a :: as, b :: bs => beqJson a b && beqArr as bs
  | _, _ => false

/-- Boolean equality on `Json` object field lists. -/
def beqObj : List (String × Json) → List (String × Json) → Bool
  | [], [] => true
  | (k, v) :: as, (k', v') :: bs => k == k' && beqJson v v' && beqObj as bs
  | _, _ => false

end

mutual

theorem beqJson_iff : ∀ a b : Json, beqJson a b = true ↔ a = b
  | .null, b => by cases b <;> simp [beqJson]
  | .bool x, b => by cases b <;> simp [beqJson]
  | .num x, b => by cases b <;> simp [beqJson]
  | .str x, b => by cases b <;> simp [beqJson]
  | .arr xs, b => by
    cases b <;> simp [beqJson]
    exact beqArr_iff xs _
  | .obj kvs, b => by
    cases b <;> simp [beqJson]
    exact beqObj_iff kvs _

theorem beqArr_iff : ∀ as bs : List Json, beqArr as bs = true ↔ as = bs
  | [], bs => by cases bs <;> simp [beqArr]
  | a :: as, bs => by
    cases bs with
    | nil => simp [beqArr]
    | cons b bs =>
      simp only [beqArr, Bool.and_eq_true, List.cons.injEq]
      rw [beqJson_iff a b, beqArr_iff as bs]

theorem beqObj_iff :
    ∀ as bs : List (String × Json), beqObj as bs = true ↔ as = bs
  | [], bs => by cases bs <;> try simp [beqObj]
  | (k, v) :: as, bs => by
    cases bs with
    | nil => simp [beqObj]
    | cons b bs =>
      obtain ⟨k', v'⟩ := b
      simp only [beqObj, Bool.and_eq_true, List.cons.injEq, Prod.mk.injEq,
        beq_iff_eq]
      rw [beqJson_iff v v', beqObj_iff as bs]

end

instance : DecidableEq Json := fun a b =>
  decidable_of_iff (beqJson a b = true) (beqJson_iff a b)

/-! ## Unambiguity of the serializer

`serUnamb` below states that a serialized value followed by a non-digit
character determines both the value and the remainder.  It yields the
injectivity of `serJson`, which is what makes a signature over the
serialized body commit the producer to the exact `taskId`, `payload` and
context fields (claim C1), and makes sorted-set members interchangeable
with the records they serialize (claims C6, C7). -/

/-- Numeric value of a digit character. -/
def digitVal (c : Char) : Nat := c.toNat - 48

theorem digitVal_digitChar (d : Nat) (h : d < 10) :
    digitVal (digitChar d) = d := by
  interval_cases d <;> decide

theorem isDigit_digitChar (d : Nat) : (digitChar d).isDigit = true := by
  rcases d with _ | _ | _ | _ | _ | _ | _ | _ | _ | d <;> rfl

theorem natDigits_ne_nil (n : Nat) : natDigits n ≠ [] := by
  rw [natDigits_eq]
  by_cases h : n < 10 <;> simp [h]

theorem natDigits_digits (n : Nat) : ∀ c ∈ natDigits n, c.isDigit = true := by
  induction n using Nat.strong_induction_on with
  | _ n ih =>
    rw [natDigits_eq]
    by_cases h : n < 10
    · simp [h, isDigit_digitChar]
    · have hdiv : n / 10 < n := Nat.div_lt_self (by omega) (by omega)
      simp only [h, if_false]
      intro c hc
      rcases List.mem_append.1 hc with h1 | h2
      · exact ih _ hdiv c h1
      · simp at h2; subst h2; exact isDigit_digitChar _

theorem natDigits_head (n : Nat) :
    ∃ c t, natDigits n = c :: t ∧ c.isDigit = true := by
  cases hd : natDigits n with
  | nil => exact absurd hd (natDigits_ne_nil n)
  | cons c t =>
    refine ⟨c, t, rfl, ?_⟩
    exact natDigits_digits n c (by rw [hd]; exact List.mem_cons_self c t)

/-- Decimal value of a digit string (left fold, as read left to right). -/
def digitsVal (ds : List Char) : Nat :=
  ds.foldl (fun a c => 10 * a + digitVal c) 0

theorem digitsVal_natDigits (n : Nat) : digitsVal (natDigits n) = n := by
  induction n using Nat.strong_induction_on with
  | _ n ih =>
    rw [natDigits_eq]
    by_cases h : n < 10
    · simp [h, digitsVal, digitVal_digitChar n h]
    · have hdiv : n / 10 < n := Nat.div_lt_self (by omega) (by omega)
      simp only [h, if_false, digitsVal, List.foldl_append]
      have : List.foldl (fun a c => 10 * a + digitVal c) 0 (natDigits (n / 10))
          = n / 10 := ih _ hdiv
      rw [this]
      simp [digitVal_digitChar (n % 10) (Nat.mod_lt n (by omega))]
      omega

theorem natDigits_inj {m n : Nat} (h : natDigits m = natDigits n) : m = n := by
  have := congrArg digitsVal h
  rwa [digitsVal_natDigits, digitsVal_natDigits] at this

/-- Is the first character (if any) a decimal digit? -/
def headIsDigit : List Char → Bool
  | [] => false
  | c :: _ => c.isDigit

theorem digitRun_cancel :
    ∀ ds ds' r r' : List Char,
      (∀ c ∈ ds, c.isDigit = true) → (∀ c ∈ ds', c.isDigit = true) →
      headIsDigit r = false → headIsDigit r' = false →
      ds ++ r = ds' ++ r' → ds = ds' ∧ r = r' := by
  intro ds
  induction ds with
  | nil =>
    intro ds' r r' _ hds' hr _ heq
    cases ds' with
    | nil => simpa using heq
    | cons c' t' =>
      simp only [List.nil_append, List.cons_append] at heq
      subst heq
      simp [headIsDigit, hds' c' (by simp)] at hr
  | cons c t ih =>
    intro ds' r r' hds hds' hr hr' heq
    cases ds' with
    | nil =>
      simp only [List.nil_append, List.cons_append] at heq
      rw [← heq] at hr'
      simp [headIsDigit, hds c (by simp)] at hr'
    | cons c' t' =>
      simp only [List.cons_append, List.cons.injEq] at heq
      obtain ⟨hc, ht⟩ := heq
      subst hc
      obtain ⟨h1, h2⟩ := ih t' r r' (fun x hx => hds x (by simp [hx]))
        (fun x hx => hds' x (by simp [hx])) hr hr' ht
      exact ⟨by rw [h1], h2⟩

theorem intChars_cancel {n n' : Int} {r r' : List Char}
    (hr : headIsDigit r = false) (hr' : headIsDigit r' = false)
    (h : intChars n ++ r = intChars n' ++ r') : n = n' ∧ r = r' := by
  unfold intChars at h
  by_cases hn : n < 0 <;> by_cases hn' : n' < 0 <;> simp [hn, hn'] at h
  · obtain ⟨h1, h2⟩ := digitRun_cancel _ _ _ _ (natDigits_digits _)
      (natDigits_digits _) hr hr' h
    refine ⟨?_, h2⟩
    have := natDigits_inj h1
    omega
  · obtain ⟨c, t, hct, hdig⟩ := natDigits_head n'.toNat
    rw [hct] at h
    simp only [List.cons_append, List.cons.injEq] at h
    rw [← h.1] at hdig
    exact absurd hdig (by decide)
  · obtain ⟨c, t, hct, hdig⟩ := natDigits_head n.toNat
    rw [hct] at h
    simp only [List.cons_append, List.cons.injEq] at h
    rw [h.1] at hdig
    exact absurd hdig (by decide)
  · obtain ⟨h1, h2⟩ := digitRun_cancel _ _ _ _ (natDigits_digits _)
      (natDigits_digits _) hr hr' h
    refine ⟨?_, h2⟩
    have := natDigits_inj h1
    omega

theorem escList_cancel :
    ∀ cs cs' r r' : List Char,
      escList cs ++ '"' :: r = escList cs' ++ '"' :: r' →
      cs = cs' ∧ r = r' := by
  intro cs
  induction cs with
  | nil =>
    intro cs' r r' heq
    cases cs' with
    | nil => simpa [escList] using heq
    | cons c' t' =>
      simp only [escList, List.nil_append, List.append_assoc,
        List.cons_append] at heq
      by_cases hc' : c' = '"' ∨ c' = '\\'
      · simp [escChar, hc'] at heq
      · have : escChar c' = [c'] := by simp [escChar, hc']
        rw [this] at heq
        simp only [List.cons_append, List.cons.injEq] at heq
        rcases heq with ⟨h1, _⟩
        exact absurd h1.symm (by tauto)
  | cons c t ih =>
    intro cs' r r' heq
    cases cs' with
    | nil =>
      simp only [escList, List.nil_append, List.append_assoc,
        List.cons_append] at heq
      by_cases hc : c = '"' ∨ c = '\\'
      · simp [escChar, hc] at heq
      · have : escChar c = [c] := by simp [escChar, hc]
        rw [this] at heq
        simp only [List.cons_append, List.cons.injEq] at heq
        rcases heq with ⟨h1, _⟩
        exact absurd h1 (by tauto)
    | cons c' t' =>
      simp only [escList, List.append_assoc] at heq
      by_cases hc : c = '"' ∨ c = '\\' <;> by_cases hc' : c' = '"' ∨ c' = '\\'
      · rw [show escChar c = ['\\', c] by simp [escChar, hc],
          show escChar c' = ['\\', c'] by simp [escChar, hc']] at heq
        simp only [List.cons_append, List.cons.injEq] at heq
        obtain ⟨-, hcc, ht⟩ := heq
        subst hcc
        obtain ⟨h1, h2⟩ := ih t' r r' ht
        exact ⟨by rw [h1], h2⟩
      · rw [show escChar c = ['\\', c] by simp [escChar, hc],
          show escChar c' = [c'] by simp [escChar, hc']] at heq
        simp only [List.cons_append, List.cons.injEq] at heq
        exact absurd heq.1.symm (by tauto)
      · rw [show escChar c = [c] by simp [escChar, hc],
          show escChar c' = ['\\', c'] by simp [escChar, hc']] at heq
        simp only [List.cons_append, List.cons.injEq] at heq
        exact absurd heq.1 (by tauto)
      · rw [show escChar c = [c] by simp [escChar, hc],
          show escChar c' = [c'] by simp [escChar, hc']] at heq
        simp only [List.cons_append, List.cons.injEq] at heq
        obtain ⟨hcc, ht⟩ := heq
        subst hcc
        obtain ⟨h1, h2⟩ := ih t' r r' ht
        exact ⟨by rw [h1], h2⟩

theorem serStr_cancel {s s' : String} {r r' : List Char}
    (h : serStrChars s ++ r = serStrChars s' ++ r') : s = s' ∧ r = r' := by
  simp only [serStrChars, List.cons_append, List.append_assoc,
    List.cons.injEq, true_and] at h
  obtain ⟨h1, h2⟩ := escList_cancel s.data s'.data r r' (by simpa using h)
  exact ⟨String.ext h1, h2⟩

/-- Constructor tag of a `Json` value (`bool` split by polarity because the
two keywords start with different letters). -/
def jsonTag : Json → Nat
  | .null => 0
  | .bool true => 1
  | .bool false => 2
  | .num _ => 3
  | .str _ => 4
  | .arr _ => 5
  | .obj _ => 6

/-- Tag recoverable from the first serialized character. -/
def charTag (c : Char) : Nat :=
  if c = 'n' then 0
  else if c = 't' then 1
  else if c = 'f' then 2
  else if c.isDigit then 3
  else if c = '-' then 3
  else if c = '"' then 4
  else if c = '[' then 5
  else if c = '{' then 6
  else 7

theorem charTag_digit {c : Char} (h : c.isDigit = true) : charTag c = 3 := by
  have hn : c ≠ 'n' := by rintro rfl; exact absurd h (by decide)
  have ht : c ≠ 't' := by rintro rfl; exact absurd h (by decide)
  have hf : c ≠ 'f' := by rintro rfl; exact absurd h (by decide)
  simp [charTag, hn, ht, hf, h]

theorem jsonTag_le (j : Json) : jsonTag j ≤ 6 := by
  cases j with
  | bool b => cases b <;> simp [jsonTag]
  | _ => simp [jsonTag]

/-- Every serialized value is nonempty and its first character reveals the
constructor of the value. -/
theorem serJson_head (j : Json) :
    ∃ c t, serJson j = c :: t ∧ charTag c = jsonTag j := by
  cases j with
  | null => exact ⟨'n', _, rfl, rfl⟩
  | bool b => cases b with
    | true => exact ⟨'t', _, rfl, rfl⟩
    | false => exact ⟨'f', _, rfl, rfl⟩
  | num n =>
    by_cases hn : n < 0
    · exact ⟨'-', natDigits n.natAbs, by simp [serJson, intChars, hn], rfl⟩
    · obtain ⟨c, t, hct, hdig⟩ := natDigits_head n.toNat
      exact ⟨c, t, by simp [serJson, intChars, hn, hct],
        by rw [charTag_digit hdig]; rfl⟩
  | str s => exact ⟨'"', _, rfl, rfl⟩
  | arr xs => exact ⟨'[', _, rfl, rfl⟩
  | obj kvs => exact ⟨'{', _, rfl, rfl⟩

/-- Serialized values of distinct constructors never coincide, whatever
follows them. -/
theorem serJson_tag_ne {j j' : Json} (h : jsonTag j ≠ jsonTag j')
    (r r' : List Char) : serJson j ++ r ≠ serJson j' ++ r' := by
  obtain ⟨c, t, hct, htag⟩ := serJson_head j
  obtain ⟨c', t', hct', htag'⟩ := serJson_head j'
  rw [hct, hct']
  intro he
  simp only [List.cons_append, List.cons.injEq] at he
  obtain ⟨hcc, -⟩ := he
  subst hcc
  rw [htag] at htag'
  exact h htag'

/-- A separator / closing character never begins a serialized value. -/
theorem close_ne_serJson {x : Char} (hx : charTag x = 7) (j : Json)
    (r r' : List Char) : x :: r ≠ serJson j ++ r' := by
  obtain ⟨c, t, hct, htag⟩ := serJson_head j
  rw [hct]
  intro he
  simp only [List.cons_append, List.cons.injEq] at he
  obtain ⟨hcc, -⟩ := he
  subst hcc
  have := jsonTag_le j
  omega

/-- Unambiguity of the serializer, proved by strong induction on size
(fuel `N`): a serialized value (resp. element list, field list) followed by
a suitable delimiter determines the value and the remainder. -/
theorem serUnambAll : ∀ N : Nat,
    (∀ j j' : Json, ∀ r r' : List Char, sizeOf j ≤ N →
      headIsDigit r = false → headIsDigit r' = false →
      serJson j ++ r = serJson j' ++ r' → j = j' ∧ r = r') ∧
    (∀ xs xs' : List Json, ∀ r r' : List Char, sizeOf xs ≤ N →
      serElems xs ++ ']' :: r = serElems xs' ++ ']' :: r' →
      xs = xs' ∧ r = r') ∧
    (∀ kvs kvs' : List (String × Json), ∀ r r' : List Char, sizeOf kvs ≤ N →
      serFields kvs ++ '}' :: r = serFields kvs' ++ '}' :: r' →
      kvs = kvs' ∧ r = r') := by
  intro N
  induction N with
  | zero =>
    refine ⟨?_, ?_, ?_⟩
    · intro j _ _ _ hsize
      exfalso; cases j <;> simp at hsize
    · intro xs _ _ _ hsize
      exfalso; cases xs <;> simp at hsize
    · intro kvs _ _ _ hsize
      exfalso; cases kvs <;> simp at hsize
  | succ N ih =>
    obtain ⟨ih1, ih2, ih3⟩ := ih
    refine ⟨?_, ?_, ?_⟩
    · -- values
      intro j j' r r' hsize hr hr' heq
      by_cases htag : jsonTag j = jsonTag j'
      case neg => exact absurd heq (serJson_tag_ne htag r r')
      cases j with
      | null =>
        cases j' with
        | null => exact ⟨rfl, by simpa [serJson] using heq⟩
        | bool b => cases b <;> simp [jsonTag] at htag
        | num n => simp [jsonTag] at htag
        | str s => simp [jsonTag] at htag
        | arr xs => simp [jsonTag] at htag
        | obj kvs => simp [jsonTag] at htag
      | bool b =>
        cases j' with
        | null => cases b <;> simp [jsonTag] at htag
        | bool b' =>
          cases b <;> cases b' <;>
            first
              | exact ⟨rfl, by simpa [serJson] using heq⟩
              | simp [jsonTag] at htag
        | num n => cases b <;> simp [jsonTag] at htag
        | str s => cases b <;> simp [jsonTag] at htag
        | arr xs => cases b <;> simp [jsonTag] at htag
        | obj kvs => cases b <;> simp [jsonTag] at htag
      | num n =>
        cases j' with
        | num n' =>
          have h := @intChars_cancel n n' _ _ hr hr'
            (by simpa [serJson] using heq)
          exact ⟨by rw [h.1], h.2⟩
        | null => simp [jsonTag] at htag
        | bool b => cases b <;> simp [jsonTag] at htag
        | str s => simp [jsonTag] at htag
        | arr xs => simp [jsonTag] at htag
        | obj kvs => simp [jsonTag] at htag
      | str s =>
        cases j' with
        | str s' =>
          have h := @serStr_cancel s s' _ _
            (by simpa [serJson] using heq)
          exact ⟨by rw [h.1], h.2⟩
        | null => simp [jsonTag] at htag
        | bool b => cases b <;> simp [jsonTag] at htag
        | num n => simp [jsonTag] at htag
        | arr xs => simp [jsonTag] at htag
        | obj kvs => simp [jsonTag] at htag
      | arr xs =>
        cases j' with
        | arr xs' =>
          have heq' : serElems xs ++ ']' :: r = serElems xs' ++ ']' :: r' := by
            simp only [serJson, List.cons_append, List.cons.injEq,
              List.append_assoc, List.singleton_append, true_and] at heq
            exact heq
          have hs : sizeOf xs ≤ N := by simp at hsize; omega
          have h := ih2 xs xs' r r' hs heq'
          exact ⟨by rw [h.1], h.2⟩
        | null => simp [jsonTag] at htag
        | bool b => cases b <;> simp [jsonTag] at htag
        | num n => simp [jsonTag] at htag
        | str s => simp [jsonTag] at htag
        | obj kvs => simp [jsonTag] at htag
      | obj kvs =>
        cases j' with
        | obj kvs' =>
          have heq' : serFields kvs ++ '}' :: r
              = serFields kvs' ++ '}' :: r' := by
            simp only [serJson, List.cons_append, List.cons.injEq,
              List.append_assoc, List.singleton_append, true_and] at heq
            exact heq
          have hs : sizeOf kvs ≤ N := by simp at hsize; omega
          have h := ih3 kvs kvs' r r' hs heq'
          exact ⟨by rw [h.1], h.2⟩
        | null => simp [jsonTag] at htag
        | bool b => cases b <;> simp [jsonTag] at htag
        | num n => simp [jsonTag] at htag
        | str s => simp [jsonTag] at htag
        | arr xs => simp [jsonTag] at htag
    · -- array element lists
      intro xs xs' r r' hsize heq
      cases xs with
      | nil =>
        cases xs' with
        | nil => exact ⟨rfl, by simpa [serElems] using heq⟩
        | cons y ys =>
          exfalso
          cases ys with
          | nil =>
            simp only [serElems, List.nil_append] at heq
            exact close_ne_serJson (by decide) y r _ heq
          | cons y₂ t =>
            simp only [serElems, List.nil_append, List.append_assoc,
              List.cons_append] at heq
            exact close_ne_serJson (by decide) y r _ heq
      | cons x xs₂ =>
        cases xs' with
        | nil =>
          exfalso
          cases xs₂ with
          | nil =>
            simp only [serElems, List.nil_append] at heq
            exact close_ne_serJson (by decide) x r' _ heq.symm
          | cons x₂ t =>
            simp only [serElems, List.nil_append, List.append_assoc,
              List.cons_append] at heq
            exact close_ne_serJson (by decide) x r' _ heq.symm
        | cons y ys₂ =>
          cases xs₂ with
          | nil =>
            cases ys₂ with
            | nil =>
              simp only [serElems] at heq
              have hx : sizeOf x ≤ N := by simp at hsize; omega
              obtain ⟨h1, h2⟩ := ih1 x y (']' :: r) (']' :: r') hx rfl rfl heq
              simp only [List.cons.injEq, true_and] at h2
              exact ⟨by rw [h1], h2⟩
            | cons y₂ t' =>
              simp only [serElems, List.append_assoc, List.cons_append] at heq
              have hx : sizeOf x ≤ N := by simp at hsize; omega
              obtain ⟨-, h2⟩ := ih1 x y (']' :: r)
                (',' :: (serElems (y₂ :: t') ++ ']' :: r')) hx rfl rfl heq
              simp at h2
          | cons x₂ t =>
            cases ys₂ with
            | nil =>
              simp only [serElems, List.append_assoc, List.cons_append] at heq
              have hx : sizeOf x ≤ N := by simp at hsize; omega
              obtain ⟨-, h2⟩ := ih1 x y
                (',' :: (serElems (x₂ :: t) ++ ']' :: r)) (']' :: r')
                hx rfl rfl heq
              simp at h2
            | cons y₂ t' =>
              simp only [serElems, List.append_assoc, List.cons_append] at heq
              have hx : sizeOf x ≤ N := by simp at hsize; omega
              obtain ⟨h1, h2⟩ := ih1 x y
                (',' :: (serElems (x₂ :: t) ++ ']' :: r))
                (',' :: (serElems (y₂ :: t') ++ ']' :: r')) hx rfl rfl heq
              simp only [List.cons.injEq, true_and] at h2
              have ht : sizeOf (x₂ :: t) ≤ N := by simp at hsize ⊢; omega
              obtain ⟨h3, h4⟩ := ih2 (x₂ :: t) (y₂ :: t') r r' ht h2
              exact ⟨by rw [h1, h3], h4⟩
    · -- object field lists
      intro kvs kvs' r r' hsize heq
      cases kvs with
      | nil =>
        cases kvs' with
        | nil => exact ⟨rfl, by simpa [serFields] using heq⟩
        | cons b ys =>
          exfalso
          obtain ⟨k', v'⟩ := b
          cases ys with
          | nil =>
            simp only [serFields, List.nil_append, List.append_assoc,
              List.cons_append, serStrChars] at heq
            simp at heq
          | cons b₂ t =>
            simp only [serFields, List.nil_append, List.append_assoc,
              List.cons_append, serStrChars] at heq
            simp at heq
      | cons a xs₂ =>
        obtain ⟨k, v⟩ := a
        cases kvs' with
        | nil =>
          exfalso
          cases xs₂ with
          | nil =>
            simp only [serFields, List.nil_append, List.append_assoc,
              List.cons_append, serStrChars] at heq
            simp at heq
          | cons a₂ t =>
            simp only [serFields, List.nil_append, List.append_assoc,
              List.cons_append, serStrChars] at heq
            simp at heq
        | cons b ys₂ =>
          obtain ⟨k', v'⟩ := b
          cases xs₂ with
          | nil =>
            cases ys₂ with
            | nil =>
              simp only [serFields, List.append_assoc, List.cons_append] at heq
              obtain ⟨hk, h2⟩ := serStr_cancel heq
              simp only [List.cons.injEq, true_and] at h2
              have hv : sizeOf v ≤ N := by simp at hsize; omega
              obtain ⟨h3, h4⟩ := ih1 v v' ('}' :: r) ('}' :: r') hv rfl rfl h2
              simp only [List.cons.injEq, true_and] at h4
              exact ⟨by rw [hk, h3], h4⟩
            | cons b₂ t' =>
              simp only [serFields, List.append_assoc, List.cons_append] at heq
              obtain ⟨-, h2⟩ := serStr_cancel heq
              simp only [List.cons.injEq, true_and] at h2
              have hv : sizeOf v ≤ N := by simp at hsize; omega
              obtain ⟨-, h4⟩ := ih1 v v' ('}' :: r)
                (',' :: (serFields (b₂ :: t') ++ '}' :: r')) hv rfl rfl h2
              simp at h4
          | cons a₂ t =>
            cases ys₂ with
            | nil =>
              simp only [serFields, List.append_assoc, List.cons_append] at heq
              obtain ⟨-, h2⟩ := serStr_cancel heq
              simp only [List.cons.injEq, true_and] at h2
              have hv : sizeOf v ≤ N := by simp at hsize; omega
              obtain ⟨-, h4⟩ := ih1 v v'
                (',' :: (serFields (a₂ :: t) ++ '}' :: r)) ('}' :: r')
                hv rfl rfl h2
              simp at h4
            | cons b₂ t' =>
              simp only [serFields, List.append_assoc, List.cons_append] at heq
              obtain ⟨hk, h2⟩ := serStr_cancel heq
              simp only [List.cons.injEq, true_and] at h2
              have hv : sizeOf v ≤ N := by simp at hsize; omega
              obtain ⟨h3, h4⟩ := ih1 v v'
                (',' :: (serFields (a₂ :: t) ++ '}' :: r))
                (',' :: (serFields (b₂ :: t') ++ '}' :: r')) hv rfl rfl h2
              simp only [List.cons.injEq, true_and] at h4
              have ht : sizeOf (a₂ :: t) ≤ N := by simp at hsize ⊢; omega
              obtain ⟨h5, h6⟩ := ih3 (a₂ :: t) (b₂ :: t') r r' ht h4
              exact ⟨by rw [hk, h3, h5], h6⟩

/-- `JSON.stringify`, as modelled by `serJson`, is injective: distinct
values have distinct serializations. -/
theorem serJson_inj {a b : Json} (h : serJson a = serJson b) : a = b := by
  have hu := (serUnambAll (sizeOf a)).1 a b [] [] le_rfl rfl rfl (by simpa using h)
  exact hu.1

/-! ## Envelope signing and verification

Models of `TaskPublisher` (`src/message-broker/rabbitmq/publisher/TaskPublisher.js`)
and the signature side of `SecureConsumer`
(`src/message-broker/rabbitmq/consumer/SecureConsumer.js`).  Message bodies
travel as `Json` values; the byte body on the wire is `serJson body`, and
since the serializer is injective (`serJson_inj`) and `JSON.parse` inverts
`JSON.stringify` on its image, transporting the value is equivalent to
transporting the string. -/

/-- AMQP headers object: ordered association of header names to string
values (the library only reads the string-valued signature header). -/
abbrev Headers := List (String × String)

/-- `headers?.['name']`: `none` models both a missing header and a missing
headers object. -/
def getHeader (hs : Headers) (k : String) : Option String := List.lookup k hs

/-- Ideal keyed MAC standing in for
`createHmac('sha256', secret).update(msg).digest('hex')`.  Computing the
real SHA-256 compression adds nothing to the claims under check, while the
collision-freeness that HMAC-SHA256 provides only computationally is what
they rely on; the model therefore uses a keyed tag that is injective in the
message for every fixed key. -/
def hmacSHA256 (secret : String) (msg : List Char) : String :=
  String.mk (secret.data ++ '|' :: msg)

theorem hmacSHA256_inj {secret : String} {m m' : List Char}
    (h : hmacSHA256 secret m = hmacSHA256 secret m') : m = m' := by
  have hdata := congrArg String.data h
  simp only [hmacSHA256] at hdata
  have := List.append_cancel_left hdata
  simpa using this

/-- Queue configuration entry from `QUEUES`
(`src/message-broker/config/queue.config.js`). -/
structure QueueConfig where
  queue : String
  exchange : String
  type : String
  routingKey : String
  dlq : String
deriving DecidableEq, Repr

/-- The `EMAIL_TASKS` entry of the `QUEUES` configuration object. -/
def emailTasksConfig : QueueConfig :=
  { queue := "email.tasks", exchange := "email.exchange", type := "direct",
    routingKey := "email.send", dlq := "email.tasks.dlq" }

/-- `TaskPublisher` state: the queue configuration and the signing secret
read from `MESSAGE_SIGNING_SECRET` (the channel handle carries no state the
claims depend on). -/
structure TaskPublisher where
  queueConfig : QueueConfig
  secret : String
deriving DecidableEq, Repr

/-- `TaskPublisher.signMessage`: hex HMAC-SHA256 of `JSON.stringify(message)`
under the shared secret. -/
def signMessage (secret : String) (message : Json) : String :=
  hmacSHA256 secret (serJson message)

theorem signMessage_inj {secret : String} {m m' : Json}
    (h : signMessage secret m = signMessage secret m') : m = m' :=
  serJson_inj (hmacSHA256_inj h)

/-- The message object built by `TaskPublisher.publish`:
`{ taskId: randomUUID(), payload: data, _ctx: context, createdAt: ... }`,
with exactly these four keys in this insertion order. -/
def publishEnvelope (uuid : String) (data context : Json)
    (nowIso : String) : Json :=
  .obj [("taskId", .str uuid), ("payload", data), ("_ctx", context),
        ("createdAt", .str nowIso)]

/-- One `channel.publish` call as observed on the broker. -/
structure PublishedMessage where
  exchange : String
  routingKey : String
  body : Json
  persistent : Bool
  contentType : String
  headers : Headers
deriving DecidableEq, Repr

/-- `TaskPublisher.publish`: builds the envelope, signs it, publishes it as
a persistent JSON message with signature and producer headers, and returns
the generated task id.  `uuid` models the `randomUUID()` draw, `nowIso` the
`new Date().toISOString()` call, and `producer` the `SERVICE_NAME`
environment variable. -/
def TaskPublisher.publish (p : TaskPublisher) (producer uuid nowIso : String)
    (data context : Json) : PublishedMessage × String :=
  let message := publishEnvelope uuid data context nowIso
  let signature := signMessage p.secret message
  ({ exchange := p.queueConfig.exchange,
     routingKey := p.queueConfig.routingKey,
     body := message,
     persistent := true,
     contentType := "application/json",
     headers := [("x-message-signature", signature), ("x-producer", producer)] },
   uuid)

/-- `SecureConsumer.verifySignature`: recompute the expected HMAC over
`JSON.stringify(message)` and compare it (`===`, false against a missing
header) with the `x-message-signature` header. -/
def verifySignature (secret : String) (message : Json)
    (headers : Headers) : Bool :=
  getHeader headers "x-message-signature"
    == some (hmacSHA256 secret (serJson message))

theorem verifySignature_publishEnvelope_false
    {secret : String} {m m' : Json} (hne : m' ≠ m) (producer : String) :
    verifySignature secret m'
      [("x-message-signature", signMessage secret m),
       ("x-producer", producer)] = false := by
  simp only [verifySignature, getHeader, List.lookup, beq_self_eq_true,
    if_pos, cond_true]
  simp only [Option.some.injEq, beq_eq_false_iff_ne, ne_eq]
  intro h
  exact hne (@signMessage_inj secret m m' h).symm

/-- C1: for every envelope published by `TaskPublisher.publish` under a
fixed shared secret, `SecureConsumer.verifySignature` accepts the parsed
body with the published headers; and any replacement of the parsed body's
`payload`, `_ctx` (context) or `taskId` field by a different value is
rejected under the same headers. -/
theorem publish_sign_verify_roundtrip_and_tamper
    (secret producer uuid nowIso : String) (cfg : QueueConfig)
    (data context : Json) :
    verifySignature secret
      ((TaskPublisher.mk cfg secret).publish producer uuid nowIso
        data context).1.body
      ((TaskPublisher.mk cfg secret).publish producer uuid nowIso
        data context).1.headers = true ∧
    (∀ v : Json, v ≠ data →
      verifySignature secret (publishEnvelope uuid v context nowIso)
        ((TaskPublisher.mk cfg secret).publish producer uuid nowIso
          data context).1.headers = false) ∧
    (∀ v : Json, v ≠ context →
      verifySignature secret (publishEnvelope uuid data v nowIso)
        ((TaskPublisher.mk cfg secret).publish producer uuid nowIso
          data context).1.headers = false) ∧
    (∀ v : Json, v ≠ Json.str uuid →
      verifySignature secret
        (Json.obj [("taskId", v), ("payload", data), ("_ctx", context),
          ("createdAt", Json.str nowIso)])
        ((TaskPublisher.mk cfg secret).publish producer uuid nowIso
          data context).1.headers = false) := by
  refine ⟨?_, ?_, ?_, ?_⟩
  · simp [TaskPublisher.publish, verifySignature, getHeader, List.lookup,
      signMessage]
  · intro v hv
    refine verifySignature_publishEnvelope_false ?_ producer
    simp only [publishEnvelope, ne_eq, Json.obj.injEq, List.cons.injEq,
      Prod.mk.injEq]
    tauto
  · intro v hv
    refine verifySignature_publishEnvelope_false ?_ producer
    simp only [publishEnvelope, ne_eq, Json.obj.injEq, List.cons.injEq,
      Prod.mk.injEq]
    tauto
  · intro v hv
    refine verifySignature_publishEnvelope_false ?_ producer
    simp only [publishEnvelope, ne_eq, Json.obj.injEq, List.cons.injEq,
      Prod.mk.injEq, Json.str.injEq]
    tauto

/-- Witness for C1 at concrete inputs. -/
theorem publish_sign_verify_roundtrip_and_tamper_witness :
    verifySignature "sec"
      ((TaskPublisher.mk emailTasksConfig "sec").publish "svc" "uuid-1" "t0"
        (Json.num 1) (Json.obj [])).1.body
      ((TaskPublisher.mk emailTasksConfig "sec").publish "svc" "uuid-1" "t0"
        (Json.num 1) (Json.obj [])).1.headers = true ∧
    verifySignature "sec"
      (publishEnvelope "uuid-1" (Json.num 2) (Json.obj []) "t0")
      ((TaskPublisher.mk emailTasksConfig "sec").publish "svc" "uuid-1" "t0"
        (Json.num 1) (Json.obj [])).1.headers = false := by
  have h := publish_sign_verify_roundtrip_and_tamper "sec" "svc" "uuid-1"
    "t0" emailTasksConfig (Json.num 1) (Json.obj [])
  exact ⟨h.1, h.2.1 (Json.num 2) (by decide)⟩

/-! ## RetryManager (`src/message-broker/redis/RetryManager.js`)

The Redis sorted set is modelled as a list of (set key, score, member)
entries with at most one entry per (key, member); members are kept as the
`Json` values whose serialization is the stored string (`serJson_inj` makes
the two representations interchangeable). -/

/-- A JS object as an ordered property list. -/
abbrev Obj := List (String × Json)

/-- Property read `m[k]` (`none` models an absent property / `undefined`). -/
def objGet (m : Obj) (k : String) : Option Json := List.lookup k m

/-- Property update as performed by a spread `{...m, k: v}`: an existing key
keeps its position and gets the new value, a new key is appended. -/
def setField : Obj → String → Json → Obj
  | [], k, v => [(k, v)]
  | (k', v') :: rest, k, v =>
    if k' = k then (k, v) :: rest else (k', v') :: setField rest k v

/-- `message._retryCount || 0` for a property that is absent or numeric
(`0` is falsy, so `num 0 || 0` is still `0 = n`).  A present non-numeric
`_retryCount` would undergo JS coercion in `(message._retryCount || 0) + 1`;
the library only ever stores numeric counts, and the claim theorems assume
that well-formed domain. -/
def numOrZero : Option Json → Int
  | some (.num n) => n
  | _ => 0

/-- One Redis sorted-set element: set key, score, member value. -/
structure StoreEntry where
  key : String
  score : Nat
  member : Json
deriving DecidableEq, Repr

/-- The whole Redis keyspace used by the retry store. -/
abbrev Store := List StoreEntry

/-- `ZADD key score member`: at most one entry per (key, member); an
existing member gets its score replaced, a new member is inserted. -/
def zadd (store : Store) (key : String) (score : Nat) (member : Json) :
    Store :=
  (store.filter fun e => !(e.key == key && e.member == member))
    ++ [⟨key, score, member⟩]

/-- `ZREM key member`. -/
def zrem (store : Store) (key : String) (member : Json) : Store :=
  store.filter fun e => !(e.key == key && e.member == member)

/-- Redis sorted-set ordering: ascending score, ties broken by the
lexicographic order of the serialized member. -/
def entryLE (a b : Nat × Json) : Bool :=
  decide (a.1 < b.1 ∨ (a.1 = b.1 ∧
    String.mk (serJson a.2) ≤ String.mk (serJson b.2)))

theorem entryLE_trans (a b c : Nat × Json) (hab : entryLE a b = true)
    (hbc : entryLE b c = true) : entryLE a c = true := by
  simp only [entryLE, decide_eq_true_eq] at hab hbc ⊢
  rcases hab with h | ⟨he, hs⟩ <;> rcases hbc with h' | ⟨he', hs'⟩
  · exact Or.inl (h.trans h')
  · exact Or.inl (he' ▸ h)
  · exact Or.inl (he ▸ h')
  · exact Or.inr ⟨he.trans he', le_trans hs hs'⟩

theorem entryLE_total (a b : Nat × Json) :
    (entryLE a b || entryLE b a) = true := by
  simp only [entryLE, Bool.or_eq_true, decide_eq_true_eq]
  rcases Nat.lt_trichotomy a.1 b.1 with h | h | h
  · exact Or.inl (Or.inl h)
  · rcases le_total (String.mk (serJson a.2)) (String.mk (serJson b.2))
      with hs | hs
    · exact Or.inl (Or.inr ⟨h, hs⟩)
    · exact Or.inr (Or.inr ⟨h.symm, hs⟩)
  · exact Or.inr (Or.inl h)

/-- `ZRANGEBYSCORE key lo hi LIMIT 0 limit`: entries of the set with score
in `[lo, hi]`, in ascending (score, member) order, truncated to `limit`. -/
def zrangebyscore (store : Store) (key : String) (lo hi : Nat)
    (limit : Nat) : List (Nat × Json) :=
  ((((store.filter fun e => e.key == key).map
      fun e => (e.score, e.member)).filter
      fun p => lo ≤ p.1 && p.1 ≤ hi).mergeSort entryLE).take limit

/-- `RetryManager` configuration.  `pfx` models the `prefix` field (that
word is unavailable as a Lean name). -/
structure RetryCfg where
  pfx : String
  maxRetries : Nat
  baseDelayMs : Nat
deriving DecidableEq, Repr

/-- JS `options.x || d` defaulting on an optional numeric option (a present
`0` is falsy and also replaced by the default). -/
def orDefaultNat (v : Option Nat) (d : Nat) : Nat :=
  match v with
  | some n => if n = 0 then d else n
  | none => d

/-- JS `options.x || d` defaulting on an optional string option. -/
def orDefaultStr (v : Option String) (d : String) : String :=
  match v with
  | some s => if s = "" then d else s
  | none => d

/-- The `RetryManager` constructor: `prefix || 'retry'`,
`maxRetries || 5`, `baseDelayMs || 5000`. -/
def mkRetryManager (pfx : Option String) (maxRetries baseDelayMs : Option Nat) :
    RetryCfg :=
  { pfx := orDefaultStr pfx "retry",
    maxRetries := orDefaultNat maxRetries 5,
    baseDelayMs := orDefaultNat baseDelayMs 5000 }

/-- `RetryManager.getKey`: the namespaced sorted-set key. -/
def getKey (cfg : RetryCfg) (queueName : String) : String :=
  cfg.pfx ++ ":" ++ queueName

/-- `RetryManager.calculateDelay`: `baseDelayMs * 2 ^ retryCount`. -/
def calculateDelay (cfg : RetryCfg) (retryCount : Nat) : Nat :=
  cfg.baseDelayMs * 2 ^ retryCount

/-- The incremented retry count `(message._retryCount || 0) + 1`. -/
def retryCountOf (message : Obj) : Int :=
  numOrZero (objGet message "_retryCount") + 1

/-- The due time `Date.now() + calculateDelay(retryCount)`. -/
def retryRunAt (cfg : RetryCfg) (now : Nat) (message : Obj) : Nat :=
  now + calculateDelay cfg (retryCountOf message).toNat

/-- The augmented record `{...message, _retryCount, _nextRetryAt}`. -/
def retryRecord (cfg : RetryCfg) (now : Nat) (message : Obj) : Obj :=
  setField (setField message "_retryCount" (.num (retryCountOf message)))
    "_nextRetryAt" (.num (retryRunAt cfg now message))

/-- `RetryManager.scheduleRetry`, value level: result flag and updated
store.  No write happens past the retry limit. -/
def scheduleRetryCore (cfg : RetryCfg) (now : Nat) (queueName : String)
    (message : Obj) (store : Store) : Bool × Store :=
  if retryCountOf message > (cfg.maxRetries : Int) then (false, store)
  else
    (true, zadd store (getKey cfg queueName) (retryRunAt cfg now message)
      (.obj (retryRecord cfg now message)))

/-- A heap of JS objects addressed by allocation index: the mutable-state
view needed to express that `scheduleRetry` never mutates the caller's
`message` object. -/
structure Heap where
  cells : List Obj
deriving Repr

/-- `RetryManager.scheduleRetry` at heap level: the message argument is a
reference into the heap, and the spread `{...message, _retryCount, _nextRetryAt}`
allocates a fresh object (evaluated only on the scheduling branch).  Store
effect and result flag agree with `scheduleRetryCore`. -/
def scheduleRetryHeap (cfg : RetryCfg) (now : Nat) (queueName : String)
    (h : Heap) (maddr : Nat) (store : Store) : Bool × Heap × Store :=
  match h.cells[maddr]? with
  | none => (false, h, store)
  | some message =>
    if retryCountOf message > (cfg.maxRetries : Int) then (false, h, store)
    else
      (true, ⟨h.cells ++ [retryRecord cfg now message]⟩,
        zadd store (getKey cfg queueName) (retryRunAt cfg now message)
          (.obj (retryRecord cfg now message)))

/-- `RetryManager.fetchDueRetries`: members with score up to `Date.now()`
taken at the start of the call, earliest first, at most `limit` of them
(default 10). -/
def fetchDueRetries (cfg : RetryCfg) (store : Store) (queueName : String)
    (now : Nat) (limit : Nat := 10) : List Json :=
  (zrangebyscore store (getKey cfg queueName) 0 now limit).map Prod.snd

/-- `RetryManager.removeRetry`. -/
def removeRetry (cfg : RetryCfg) (store : Store) (queueName : String)
    (member : Json) : Store :=
  zrem store (getKey cfg queueName) member

/-- C2: `scheduleRetry` computes `retryCount = (_retryCount || 0) + 1`;
past `maxRetries` it returns `false` without writing; otherwise it upserts
exactly the augmented record (message plus `_retryCount`/`_nextRetryAt`)
into the sorted set `prefix:queueName` with score
`now + baseDelayMs * 2 ^ retryCount` and returns `true`; with defaults the
delays for retries 1..5 are 10s/20s/40s/80s/160s and `maxRetries = 5`. -/
theorem scheduleRetry_count_limit_write
    (cfg : RetryCfg) (now : Nat) (q : String) (message : Obj) (store : Store)
    (n : Nat)
    (hn : objGet message "_retryCount" = some (.num (n : Int)) ∨
          (objGet message "_retryCount" = none ∧ n = 0)) :
    retryCountOf message = (n : Int) + 1 ∧
    (n + 1 > cfg.maxRetries →
      scheduleRetryCore cfg now q message store = (false, store)) ∧
    (n + 1 ≤ cfg.maxRetries →
      scheduleRetryCore cfg now q message store =
        (true,
          zadd store (getKey cfg q) (now + cfg.baseDelayMs * 2 ^ (n + 1))
            (.obj (setField
              (setField message "_retryCount" (.num ((n : Int) + 1)))
              "_nextRetryAt"
              (.num ((now + cfg.baseDelayMs * 2 ^ (n + 1) : Nat) : Int)))))) ∧
    ((mkRetryManager none none none).maxRetries = 5 ∧
     (mkRetryManager none none none).baseDelayMs = 5000 ∧
     calculateDelay (mkRetryManager none none none) 1 = 10000 ∧
     calculateDelay (mkRetryManager none none none) 2 = 20000 ∧
     calculateDelay (mkRetryManager none none none) 3 = 40000 ∧
     calculateDelay (mkRetryManager none none none) 4 = 80000 ∧
     calculateDelay (mkRetryManager none none none) 5 = 160000) := by
  have hnz : numOrZero (objGet message "_retryCount") = (n : Int) := by
    rcases hn with h | ⟨h, rfl⟩ <;> simp [numOrZero, h]
  have hrc : retryCountOf message = (n : Int) + 1 := by
    simp [retryCountOf, hnz]
  refine ⟨hrc, ?_, ?_, by decide⟩
  · intro hgt
    rw [scheduleRetryCore, if_pos]
    rw [hrc]
    exact_mod_cast hgt
  · intro hle
    rw [scheduleRetryCore, if_neg]
    · have htn : (retryCountOf message).toNat = n + 1 := by
        rw [hrc]; exact_mod_cast rfl
      rw [retryRunAt, retryRecord, retryRunAt, calculateDelay, htn, hrc]
    · rw [hrc]
      intro hc
      have : n + 1 > cfg.maxRetries := by exact_mod_cast hc
      omega

/-- Witness for C2: a message on its second failure (stored count 2) under
default options is rescheduled 40 s out with count 3. -/
theorem scheduleRetry_count_limit_write_witness :
    scheduleRetryCore (mkRetryManager none none none) 1000 "Q"
      [("_retryCount", Json.num 2)] [] =
      (true,
        zadd [] (getKey (mkRetryManager none none none) "Q")
          (1000 + 5000 * 2 ^ 3)
          (.obj (setField
            (setField [("_retryCount", Json.num 2)] "_retryCount"
              (.num (((2 : Nat) : Int) + 1)))
            "_nextRetryAt"
            (.num ((1000 + 5000 * 2 ^ 3 : Nat) : Int))))) := by
  have h := scheduleRetry_count_limit_write (mkRetryManager none none none)
    1000 "Q" [("_retryCount", Json.num 2)] [] 2 (Or.inl (by decide))
  exact h.2.2.1 (by decide)

/-- C6: `fetchDueRetries` returns the members of at most `limit` entries
(default 10), each with score no greater than the `Date.now()` taken at the
start of the call, in ascending score order. -/
theorem fetchDueRetries_limit_due_sorted
    (cfg : RetryCfg) (store : Store) (q : String) (now limit : Nat) :
    fetchDueRetries cfg store q now limit
      = (zrangebyscore store (getKey cfg q) 0 now limit).map Prod.snd ∧
    (fetchDueRetries cfg store q now limit).length ≤ limit ∧
    (∀ p ∈ zrangebyscore store (getKey cfg q) 0 now limit, p.1 ≤ now) ∧
    List.Pairwise (fun a b : Nat × Json => a.1 ≤ b.1)
      (zrangebyscore store (getKey cfg q) 0 now limit) ∧
    fetchDueRetries cfg store q now = fetchDueRetries cfg store q now 10 := by
  refine ⟨rfl, ?_, ?_, ?_, rfl⟩
  · simp only [fetchDueRetries, zrangebyscore, List.length_map,
      List.length_take]
    omega
  · intro p hp
    simp only [zrangebyscore] at hp
    have hp2 := (List.take_sublist _ _).subset hp
    rw [List.mem_mergeSort] at hp2
    have := (List.mem_filter.1 hp2).2
    simp only [Bool.and_eq_true, decide_eq_true_eq] at this
    exact this.2
  · simp only [zrangebyscore]
    refine List.Pairwise.imp ?_
      (((List.sorted_mergeSort entryLE_trans entryLE_total _).sublist
        (List.take_sublist _ _)))
    intro a b hab
    simp only [entryLE, decide_eq_true_eq] at hab
    rcases hab with h | ⟨h, -⟩
    · exact Nat.le_of_lt h
    · exact Nat.le_of_eq h

/-- C10: `scheduleRetry` never mutates its message argument: every
previously allocated object (in particular the caller's message) is
unchanged after the call; on the no-schedule path the heap is untouched,
and on the schedule path the augmented record is a freshly allocated
copy. -/
theorem scheduleRetry_no_mutation
    (cfg : RetryCfg) (now : Nat) (q : String) (h : Heap) (maddr : Nat)
    (store : Store) :
    (scheduleRetryHeap cfg now q h maddr store).2.1.cells.take
        h.cells.length = h.cells ∧
    ((scheduleRetryHeap cfg now q h maddr store).1 = false →
      (scheduleRetryHeap cfg now q h maddr store).2.1 = h) ∧
    (∀ message, h.cells[maddr]? = some message →
      (scheduleRetryHeap cfg now q h maddr store).2.1.cells[maddr]?
        = some message) ∧
    (∀ message, h.cells[maddr]? = some message →
      (scheduleRetryHeap cfg now q h maddr store).1 = true →
      (scheduleRetryHeap cfg now q h maddr
          store).2.1.cells[h.cells.length]?
        = some (retryRecord cfg now message)) := by
  rcases hm : h.cells[maddr]? with - | message
  · refine ⟨?_, ?_, ?_, ?_⟩ <;>
      simp [scheduleRetryHeap, hm, List.take_length]
  · have hlt : maddr < h.cells.length := by
      by_contra hge
      rw [List.getElem?_eq_none (by omega)] at hm
      exact Option.noConfusion hm
    by_cases hcond : retryCountOf message > (cfg.maxRetries : Int)
    · refine ⟨?_, ?_, ?_, ?_⟩ <;>
        simp [scheduleRetryHeap, hm, hcond, List.take_length]
    · refine ⟨?_, ?_, ?_, ?_⟩
      · simp only [scheduleRetryHeap, hm, hcond, if_false]
        exact List.take_left _ _
      · simp [scheduleRetryHeap, hm, hcond]
      · intro m hm'
        obtain rfl := Option.some.inj hm'
        simp only [scheduleRetryHeap, hm, hcond, if_false]
        rw [List.getElem?_append]
        simp [hlt, hm]
      · intro m hm' _
        obtain rfl := Option.some.inj hm'
        simp only [scheduleRetryHeap, hm, hcond, if_false]
        rw [List.getElem?_append]
        simp

/-- Witness for C10 at a concrete one-object heap. -/
theorem scheduleRetry_no_mutation_witness :
    (scheduleRetryHeap (mkRetryManager none none none) 0 "Q"
        ⟨[[("x", Json.num 7)]]⟩ 0 []).2.1.cells[0]?
      = some [("x", Json.num 7)] := by
  have h := scheduleRetry_no_mutation (mkRetryManager none none none) 0 "Q"
    ⟨[[("x", Json.num 7)]]⟩ 0 []
  exact h.2.2.1 [("x", Json.num 7)] rfl

/-! ## Consumer stack

`BaseConsumer.consume` (`consumer/index.js`), `SecureConsumer.consume`
(`consumer/SecureConsumer.js`) and `Worker._messageWrapper`
(`templates/worker.template.js`), composed per delivery exactly as
`startConsumer` and `Worker.start` wire them together. -/

/-- Terminal acknowledgement decision for one delivery. -/
inductive Outcome where
  | ack : Outcome
  | dlqReject : Outcome
  | ignored : Outcome
deriving DecidableEq, Repr

/-- One broker delivery as seen by the consume callback.  `content` is the
result of `JSON.parse(msg.content.toString())`; `none` models a body on
which `JSON.parse` throws. -/
structure Delivery where
  content : Option Json
  headers : Headers
deriving Repr

/-- `BaseConsumer.consume`'s per-delivery handling for a callback that may
update a state `σ` (the retry store, once the worker is wired in): a null
delivery (`none`) is ignored; otherwise the body is parsed and passed with
the headers to `onMessage`; resolution acks, a parse error or callback
rejection nacks without requeue (routing the delivery to the DLQ). -/
def baseConsumeDelivery {σ : Type}
    (onMessage : Json → Headers → σ → Except String Unit × σ)
    (s : σ) (delivery : Option Delivery) : Outcome × σ :=
  match delivery with
  | none => (.ignored, s)
  | some d =>
    match d.content with
    | none => (.dlqReject, s)
    | some content =>
      match onMessage content d.headers s with
      | (.ok _, s') => (.ack, s')
      | (.error _, s') => (.dlqReject, s')

/-- Property read `m.f` on an arbitrary parsed JSON value (`none` models
`undefined`, including reads on non-objects). -/
def Json.getField : Json → String → Option Json
  | .obj kvs, k => List.lookup k kvs
  | _, _ => none

/-- A possibly-absent property contributes nothing to an object literal
whose value would be `undefined` (such a property is also dropped again by
`JSON.stringify`, so this identification is stable under serialization). -/
def optProp (k : String) : Option Json → Obj
  | some v => [(k, v)]
  | none => []

/-- The normalized message `{taskId, payload, context, createdAt}` that
`SecureConsumer.consume` passes to its handler (context read from the
envelope's `_ctx` field). -/
def normalizeMsg (m : Json) : Obj :=
  optProp "taskId" (m.getField "taskId") ++
  optProp "payload" (m.getField "payload") ++
  optProp "context" (m.getField "_ctx") ++
  optProp "createdAt" (m.getField "createdAt")

/-- The callback that `SecureConsumer.consume` registers with
`super.consume`: verify the signature — throwing `Invalid message
signature` on mismatch, before the handler can run — then hand the
normalized message to the handler. -/
def secureOnMessage {σ : Type} (secret : String)
    (handler : Obj → σ → Except String Unit × σ)
    (message : Json) (headers : Headers) (s : σ) :
    Except String Unit × σ :=
  if verifySignature secret message headers then
    handler (normalizeMsg message) s
  else (.error "Invalid message signature", s)

/-- JS truthiness of a defined JSON value. -/
def jsTruthy : Json → Bool
  | .null => false
  | .bool b => b
  | .num n => !(n == 0)
  | .str s => !(s == "")
  | .arr _ => true
  | .obj _ => true

/-- `data.context?.action || 'default'`: the routing action (JS `||` falls
back to `'default'` on any falsy value, e.g. an empty string). -/
def routedAction (data : Obj) : Json :=
  match (objGet data "context").bind (fun c => c.getField "action") with
  | some v => if jsTruthy v then v else .str "default"
  | none => .str "default"

/-- The worker's registered handlers (`registerHandler`): action name to
handler; handlers are modelled by their decision on the normalized
message. -/
abbrev HandlerMap := String → Option (Obj → Except String Unit)

/-- `this.handlers.get(action)`: the `Map`'s keys are the strings passed to
`registerHandler`, so a non-string action value finds no handler. -/
def handlerFor (handlers : HandlerMap) :
    Json → Option (Obj → Except String Unit)
  | .str s => handlers s
  | _ => none

/-- `Worker._messageWrapper`: route by action and run the handler; on a
missing handler or a handler error, schedule a retry for the worker's
queue key and re-throw (the interpolated error text is abbreviated). -/
def messageWrapper (handlers : HandlerMap) (cfg : RetryCfg) (now : Nat)
    (queueKey : String) (data : Obj) (store : Store) :
    Except String Unit × Store :=
  match handlerFor handlers (routedAction data) with
  | none =>
    (.error "No handler registered for action",
     (scheduleRetryCore cfg now queueKey data store).2)
  | some handler =>
    match handler data with
    | .ok _ => (.ok (), store)
    | .error e => (.error e, (scheduleRetryCore cfg now queueKey data store).2)

/-- The full per-delivery consumer stack wired by `startConsumer` and
`Worker.start`: BaseConsumer around SecureConsumer around
`_messageWrapper`, acting on the retry store. -/
def consumeDelivery (secret : String) (handlers : HandlerMap)
    (cfg : RetryCfg) (now : Nat) (queueKey : String) (store : Store)
    (delivery : Option Delivery) : Outcome × Store :=
  baseConsumeDelivery
    (secureOnMessage secret (messageWrapper handlers cfg now queueKey))
    store delivery

/-- C4: for every delivery handled by the subscription `BaseConsumer.consume`
registers: a null delivery is ignored with no acknowledgement; a body that
fails to parse is rejected without requeue; when the callback resolves the
delivery is acknowledged; when it throws the delivery is rejected without
requeue; and every non-null delivery ends in exactly one of ack or
DLQ-reject. -/
theorem baseConsume_ack_or_dlq {σ : Type}
    (onMessage : Json → Headers → σ → Except String Unit × σ) (s : σ) :
    baseConsumeDelivery onMessage s none = (.ignored, s) ∧
    (∀ hs : Headers,
      baseConsumeDelivery onMessage s (some ⟨none, hs⟩) = (.dlqReject, s)) ∧
    (∀ content hs s', onMessage content hs s = (.ok (), s') →
      baseConsumeDelivery onMessage s (some ⟨some content, hs⟩)
        = (.ack, s')) ∧
    (∀ content hs e s', onMessage content hs s = (.error e, s') →
      baseConsumeDelivery onMessage s (some ⟨some content, hs⟩)
        = (.dlqReject, s')) ∧
    (∀ d : Delivery,
      (baseConsumeDelivery onMessage s (some d)).1 = .ack ∨
      (baseConsumeDelivery onMessage s (some d)).1 = .dlqReject) := by
  refine ⟨rfl, fun hs => rfl, ?_, ?_, ?_⟩
  · intro content hs s' h
    simp [baseConsumeDelivery, h]
  · intro content hs e s' h
    simp [baseConsumeDelivery, h]
  · intro d
    rcases d with ⟨content, hs⟩
    cases content with
    | none => exact Or.inr rfl
    | some c =>
      simp only [baseConsumeDelivery]
      rcases onMessage c hs s with ⟨res, s'⟩
      cases res with
      | ok _ => exact Or.inl rfl
      | error _ => exact Or.inr rfl

/-- Witness for C4 with an always-succeeding and an always-throwing
callback over a unit state. -/
theorem baseConsume_ack_or_dlq_witness :
    @baseConsumeDelivery Unit (fun _ _ s => (.ok (), s)) ()
      (some ⟨some Json.null, []⟩) = (.ack, ()) ∧
    @baseConsumeDelivery Unit (fun _ _ s => (.error "boom", s)) ()
      (some ⟨some Json.null, []⟩) = (.dlqReject, ()) := by
  refine ⟨?_, ?_⟩
  · exact (baseConsume_ack_or_dlq (fun _ _ s => (.ok (), s)) ()).2.2.1
      Json.null [] () rfl
  · exact (baseConsume_ack_or_dlq (fun _ _ s => (.error "boom", s)) ()).2.2.2.1
      Json.null [] "boom" () rfl

/-- C3: a delivery whose `x-message-signature` header is absent or differs
from the HMAC of the parsed body is rejected without requeue (DLQ), the
retry store is untouched, and the business handlers are never consulted
(the outcome is the same whatever handlers are registered). -/
theorem invalid_signature_dlq_no_handler_no_retry
    (secret : String) (handlers : HandlerMap) (cfg : RetryCfg) (now : Nat)
    (queueKey : String) (store : Store) (content : Json) (hs : Headers)
    (hbad : getHeader hs "x-message-signature"
      ≠ some (hmacSHA256 secret (serJson content))) :
    consumeDelivery secret handlers cfg now queueKey store
      (some ⟨some content, hs⟩) = (.dlqReject, store) ∧
    (∀ handlers' : HandlerMap,
      consumeDelivery secret handlers' cfg now queueKey store
          (some ⟨some content, hs⟩)
        = (.dlqReject, store)) := by
  have hver : verifySignature secret content hs = false := by
    simp only [verifySignature, beq_eq_false_iff_ne, ne_eq]
    exact hbad
  constructor
  · simp [consumeDelivery, baseConsumeDelivery, secureOnMessage, hver]
  · intro handlers'
    simp [consumeDelivery, baseConsumeDelivery, secureOnMessage, hver]

/-- Witness for C3: a delivery with no signature header at all. -/
theorem invalid_signature_dlq_no_handler_no_retry_witness :
    consumeDelivery "sec" (fun _ => none) (mkRetryManager none none none) 0
      "EMAIL_TASKS" [] (some ⟨some Json.null, []⟩) = (.dlqReject, []) := by
  exact (invalid_signature_dlq_no_handler_no_retry "sec" (fun _ => none)
    (mkRetryManager none none none) 0 "EMAIL_TASKS" [] Json.null []
    (by simp [getHeader])).1

/-- C5 counterexample: `context.action` may be present yet routed away
from — for the present empty-string action the code (`action || 'default'`)
routes to `"default"`, so the routing action is not `context.action` even
though that field is present. -/
theorem routedAction_present_falsy_counterexample :
    routedAction [("context", Json.obj [("action", Json.str "")])]
        = Json.str "default" ∧
    objGet [("context", Json.obj [("action", Json.str "")])] "context"
        = some (Json.obj [("action", Json.str "")]) ∧
    (Json.obj [("action", Json.str "")]).getField "action"
        = some (Json.str "") ∧
    Json.str "default" ≠ Json.str "" := by
  refine ⟨?_, ?_, ?_, ?_⟩ <;> decide

/-- C5 (amended): the routing action is `context.action` when that field is
present *and truthy* (in particular a non-empty string), and the literal
`"default"` otherwise; when no handler is registered for the action, or the
handler throws, the worker schedules a retry for its queue key and re-throws
(so the Consumer layer rejects the delivery); on handler success no retry is
scheduled and no error propagates. -/
theorem messageWrapper_routing_retry_rethrow
    (handlers : HandlerMap) (cfg : RetryCfg) (now : Nat) (queueKey : String)
    (data : Obj) (store : Store) :
    (∀ a : Json,
      (objGet data "context").bind (fun c => c.getField "action") = some a →
      jsTruthy a = true → routedAction data = a) ∧
    (∀ a : Json,
      (objGet data "context").bind (fun c => c.getField "action") = some a →
      jsTruthy a = false → routedAction data = Json.str "default") ∧
    ((objGet data "context").bind (fun c => c.getField "action") = none →
      routedAction data = Json.str "default") ∧
    (handlerFor handlers (routedAction data) = none →
      messageWrapper handlers cfg now queueKey data store
        = (.error "No handler registered for action",
           (scheduleRetryCore cfg now queueKey data store).2)) ∧
    (∀ h e, handlerFor handlers (routedAction data) = some h →
      h data = .error e →
      messageWrapper handlers cfg now queueKey data store
        = (.error e, (scheduleRetryCore cfg now queueKey data store).2)) ∧
    (∀ h, handlerFor handlers (routedAction data) = some h →
      h data = .ok () →
      messageWrapper handlers cfg now queueKey data store
        = (.ok (), store)) := by
  refine ⟨?_, ?_, ?_, ?_, ?_, ?_⟩
  · intro a ha htruthy
    simp [routedAction, ha, htruthy]
  · intro a ha hfalsy
    simp [routedAction, ha, hfalsy]
  · intro ha
    simp [routedAction, ha]
  · intro hnone
    simp [messageWrapper, hnone]
  · intro h e hh herr
    simp [messageWrapper, hh, herr]
  · intro h hh hok
    simp [messageWrapper, hh, hok]

/-- Witness for the amended C5: an unregistered action schedules a retry
and re-throws; a succeeding registered handler acks cleanly. -/
theorem messageWrapper_routing_retry_rethrow_witness :
    messageWrapper (fun _ => none) (mkRetryManager none none none) 0 "Q"
      [("taskId", Json.str "t")] []
      = (.error "No handler registered for action",
         (scheduleRetryCore (mkRetryManager none none none) 0 "Q"
           [("taskId", Json.str "t")] []).2) ∧
    messageWrapper
      (fun a => if a = "default" then some (fun _ => .ok ()) else none)
      (mkRetryManager none none none) 0 "Q" [("taskId", Json.str "t")] []
      = (.ok (), []) := by
  constructor
  · exact (messageWrapper_routing_retry_rethrow (fun _ => none)
      (mkRetryManager none none none) 0 "Q" [("taskId", Json.str "t")]
      []).2.2.2.1 rfl
  · exact (messageWrapper_routing_retry_rethrow
      (fun a => if a = "default" then some (fun _ => .ok ()) else none)
      (mkRetryManager none none none) 0 "Q" [("taskId", Json.str "t")]
      []).2.2.2.2.2 (fun _ => .ok ()) rfl rfl

/-! ## Retry poller (`Worker.startRetryPoller` and `publishTask`) -/

/-- `publishTask` (`publisher/publishTask.js`): Joi validation — `queueKey`
a non-empty string, `payload` defined — then publish through the memoized
publisher for the queue key; an undefined `context` falls back to the
`publish` default `{}`. -/
def publishTaskM (pub : TaskPublisher) (queueKey uuid nowIso producer : String)
    (payload context : Option Json) :
    Except String (PublishedMessage × String) :=
  if queueKey = "" then .error "Publish validation failed"
  else
    match payload with
    | none => .error "Publish validation failed"
    | some p =>
      .ok (pub.publish producer uuid nowIso p (context.getD (.obj [])))

/-- Observable effect of one poller round, in execution order. -/
inductive PollEffect where
  | published (msg : PublishedMessage) (taskId : String)
  | removed (key : String) (member : Json)
deriving Repr

/-- The loop of `Worker.startRetryPoller`'s tick over the fetched due
records: for each record, publish a brand-new task from the record's
`payload`/`context` and only then remove the record; an error aborts the
remaining records (the `try` wraps the whole `for` loop).  `uuids i` is the
`randomUUID()` draw of iteration `i`. -/
def pollerLoop (pub : TaskPublisher) (cfg : RetryCfg)
    (queueKey producer nowIso : String) (uuids : Nat → String) :
    Nat → List Json → Store → Store × List PollEffect
  | _, [], store => (store, [])
  | i, task :: rest, store =>
    match publishTaskM pub queueKey (uuids i) nowIso producer
        (task.getField "payload") (task.getField "context") with
    | .error _ => (store, [])
    | .ok (msg, tid) =>
      let store' := removeRetry cfg store queueKey task
      let next := pollerLoop pub cfg queueKey producer nowIso uuids
        (i + 1) rest store'
      (next.1, .published msg tid
        :: .removed (getKey cfg queueKey) task :: next.2)

/-- One round of `Worker.startRetryPoller`: fetch the due records for the
worker's queue (default limit) and process them in order. -/
def pollerTick (pub : TaskPublisher) (cfg : RetryCfg)
    (queueKey producer nowIso : String) (uuids : Nat → String) (now : Nat)
    (store : Store) : Store × List PollEffect :=
  pollerLoop pub cfg queueKey producer nowIso uuids 0
    (fetchDueRetries cfg store queueKey now) store

/-- The trace C7 predicts: for the `i`-th due record, a publish of the
brand-new envelope built from the record's payload and context, followed by
the removal of exactly that record. -/
def expectedPollTrace (pub : TaskPublisher) (cfg : RetryCfg)
    (queueKey producer nowIso : String) (uuids : Nat → String) :
    Nat → List Json → List PollEffect
  | _, [] => []
  | i, task :: rest =>
    .published (pub.publish producer (uuids i) nowIso
        ((task.getField "payload").getD .null)
        ((task.getField "context").getD (.obj []))).1 (uuids i)
      :: .removed (getKey cfg queueKey) task
      :: expectedPollTrace pub cfg queueKey producer nowIso uuids
          (i + 1) rest

theorem pollerLoop_spec (pub : TaskPublisher) (cfg : RetryCfg)
    (queueKey producer nowIso : String) (uuids : Nat → String)
    (hqk : queueKey ≠ "") :
    ∀ (due : List Json) (i : Nat) (store : Store),
      (∀ t ∈ due, ∃ p, t.getField "payload" = some p) →
      pollerLoop pub cfg queueKey producer nowIso uuids i due store =
        (due.foldl (fun s t => removeRetry cfg s queueKey t) store,
         expectedPollTrace pub cfg queueKey producer nowIso uuids i due) := by
  intro due
  induction due with
  | nil => intro i store _; rfl
  | cons task rest ih =>
    intro i store hwf
    obtain ⟨p, hp⟩ := hwf task (by simp)
    simp only [pollerLoop, publishTaskM, hqk, if_false, hp,
      expectedPollTrace, List.foldl_cons]
    rw [ih (i + 1) (removeRetry cfg store queueKey task)
      (fun t ht => hwf t (by simp [ht]))]
    simp [hp, TaskPublisher.publish]

/-- C7: on a poller tick, each fetched due record is processed in order —
a brand-new task built from only the record's `payload` and `context` is
published (fresh task id drawn from the `randomUUID` supply, body exactly
the four-field envelope, hence no `_retryCount` field) and only then is
exactly that record removed; the final store is the original minus the
processed records. -/
theorem pollerTick_republish_fresh_then_remove
    (pub : TaskPublisher) (cfg : RetryCfg)
    (queueKey producer nowIso : String) (uuids : Nat → String) (now : Nat)
    (store : Store) (hqk : queueKey ≠ "")
    (hwf : ∀ t ∈ fetchDueRetries cfg store queueKey now,
      ∃ p, t.getField "payload" = some p) :
    pollerTick pub cfg queueKey producer nowIso uuids now store =
      ((fetchDueRetries cfg store queueKey now).foldl
        (fun s t => removeRetry cfg s queueKey t) store,
       expectedPollTrace pub cfg queueKey producer nowIso uuids 0
        (fetchDueRetries cfg store queueKey now)) ∧
    (∀ u p c,
      ((pub.publish producer u nowIso p c).1.body).getField "_retryCount"
        = none) ∧
    (∀ u p c,
      ((pub.publish producer u nowIso p c).1.body).getField "taskId"
        = some (.str u) ∧ (pub.publish producer u nowIso p c).2 = u) ∧
    (∀ u p c,
      (pub.publish producer u nowIso p c).1.body
        = publishEnvelope u p c nowIso) := by
  refine ⟨?_, ?_, ?_, ?_⟩
  · exact pollerLoop_spec pub cfg queueKey producer nowIso uuids hqk
      (fetchDueRetries cfg store queueKey now) 0 store hwf
  · intro u p c
    simp [TaskPublisher.publish, publishEnvelope, Json.getField, List.lookup]
  · intro u p c
    exact ⟨by simp [TaskPublisher.publish, publishEnvelope, Json.getField,
      List.lookup], rfl⟩
  · intro u p c
    rfl

/-- Witness for C7: a store holding one due record for queue `Q`. -/
theorem pollerTick_republish_fresh_then_remove_witness :
    pollerTick (TaskPublisher.mk emailTasksConfig "sec")
        (mkRetryManager none none none) "Q" "svc" "t0" (fun _ => "u") 10
        [⟨getKey (mkRetryManager none none none) "Q", 5,
          Json.obj [("payload", Json.num 1)]⟩] =
      ((fetchDueRetries (mkRetryManager none none none)
          [⟨getKey (mkRetryManager none none none) "Q", 5,
            Json.obj [("payload", Json.num 1)]⟩] "Q" 10).foldl
        (fun s t => removeRetry (mkRetryManager none none none) s "Q" t)
        [⟨getKey (mkRetryManager none none none) "Q", 5,
          Json.obj [("payload", Json.num 1)]⟩],
       expectedPollTrace (TaskPublisher.mk emailTasksConfig "sec")
        (mkRetryManager none none none) "Q" "svc" "t0" (fun _ => "u") 0
        (fetchDueRetries (mkRetryManager none none none)
          [⟨getKey (mkRetryManager none none none) "Q", 5,
            Json.obj [("payload", Json.num 1)]⟩] "Q" 10)) := by
  refine (pollerTick_republish_fresh_then_remove _ _ "Q" "svc" "t0"
    (fun _ => "u") 10 _ (by decide) ?_).1
  intro t ht
  simp only [fetchDueRetries, zrangebyscore, getKey] at ht
  simp [List.mergeSort] at ht
  subst ht
  exact ⟨Json.num 1, rfl⟩

/-! ## Topology assertion and publisher registry -/

/-- One channel topology operation, in call order. -/
inductive TopOp where
  | assertExchange (exchange ty : String) (durable : Bool)
  | assertQueue (queue : String) (durable : Bool)
      (deadLetterExchange deadLetterRoutingKey : Option String)
  | bindQueue (queue exchange routingKey : String)
deriving DecidableEq, Repr

/-- Consumer-side `assertTopology` (`rabbitmq/assertTopology.js`):
exchange, dead-letter queue, main queue (dead-lettering to the default
exchange under the DLQ name), then the binding. -/
def assertTopologySteps (cfg : QueueConfig) : List TopOp :=
  [.assertExchange cfg.exchange cfg.type true,
   .assertQueue cfg.dlq true none none,
   .assertQueue cfg.queue true (some "") (some cfg.dlq),
   .bindQueue cfg.queue cfg.exchange cfg.routingKey]

/-- Publisher-side `BasePublisher.setupTopology`
(`publisher/BasePublisher.js`): exchange, then the *main queue*, then the
DLQ, and a binding only under `if (routingKey)`. -/
def setupTopologySteps (cfg : QueueConfig) : List TopOp :=
  [.assertExchange cfg.exchange cfg.type true,
   .assertQueue cfg.queue true (some "") (some cfg.dlq),
   .assertQueue cfg.dlq true none none]
  ++ (if cfg.routingKey ≠ "" then
        [.bindQueue cfg.queue cfg.exchange cfg.routingKey]
      else [])

/-- C8 counterexample: on the publisher-side path the claimed order
(exchange, DLQ, main queue, bind) does not hold — already for the
library's own `EMAIL_TASKS` configuration the second operation asserts the
main queue, not the DLQ. -/
theorem setupTopology_order_counterexample :
    setupTopologySteps emailTasksConfig ≠
      [.assertExchange "email.exchange" "direct" true,
       .assertQueue "email.tasks.dlq" true none none,
       .assertQueue "email.tasks" true (some "") (some "email.tasks.dlq"),
       .bindQueue "email.tasks" "email.exchange" "email.send"] ∧
    assertTopologySteps emailTasksConfig =
      [.assertExchange "email.exchange" "direct" true,
       .assertQueue "email.tasks.dlq" true none none,
       .assertQueue "email.tasks" true (some "") (some "email.tasks.dlq"),
       .bindQueue "email.tasks" "email.exchange" "email.send"] := by
  constructor <;> decide

/-- C8 (amended): the consumer-side path asserts exchange (durable, given
type), DLQ (durable), main queue (durable, dead-lettered to the default
exchange under the DLQ name), then binds — in that order; the
publisher-side path asserts exchange, then the main queue, then the DLQ,
and binds last only when a routing key is configured (truthy). -/
theorem topology_setup_orders (cfg : QueueConfig) :
    assertTopologySteps cfg =
      [.assertExchange cfg.exchange cfg.type true,
       .assertQueue cfg.dlq true none none,
       .assertQueue cfg.queue true (some "") (some cfg.dlq),
       .bindQueue cfg.queue cfg.exchange cfg.routingKey] ∧
    (cfg.routingKey ≠ "" →
      setupTopologySteps cfg =
        [.assertExchange cfg.exchange cfg.type true,
         .assertQueue cfg.queue true (some "") (some cfg.dlq),
         .assertQueue cfg.dlq true none none,
         .bindQueue cfg.queue cfg.exchange cfg.routingKey]) ∧
    (cfg.routingKey = "" →
      setupTopologySteps cfg =
        [.assertExchange cfg.exchange cfg.type true,
         .assertQueue cfg.queue true (some "") (some cfg.dlq),
         .assertQueue cfg.dlq true none none]) := by
  refine ⟨rfl, ?_, ?_⟩
  · intro h; simp [setupTopologySteps, h]
  · intro h; simp [setupTopologySteps, h]

/-- Witness for the amended C8 on the `EMAIL_TASKS` configuration. -/
theorem topology_setup_orders_witness :
    setupTopologySteps emailTasksConfig =
      [.assertExchange "email.exchange" "direct" true,
       .assertQueue "email.tasks" true (some "") (some "email.tasks.dlq"),
       .assertQueue "email.tasks.dlq" true none none,
       .bindQueue "email.tasks" "email.exchange" "email.send"] := by
  exact (topology_setup_orders emailTasksConfig).2.1 (by decide)

/-- The in-memory publisher registry (`publisher/PublisherRegistry.js`). -/
abbrev Registry := List (String × TaskPublisher)

/-- `getPublisher(queueKey)`: return the cached publisher if present;
otherwise resolve the queue configuration (throwing when absent — the
thrown message interpolates the undefined config, hence the literal
`undefined`), set up topology, create and cache a publisher.  The result
lists the topology operations performed by the call. -/
def getPublisher (queues : String → Option QueueConfig) (secret : String)
    (reg : Registry) (queueKey : String) :
    Except String TaskPublisher × Registry × List TopOp :=
  match List.lookup queueKey reg with
  | some p => (.ok p, reg, [])
  | none =>
    match queues queueKey with
    | none => (.error "Queue config not found for key: undefined", reg, [])
    | some cfg =>
      (.ok ⟨cfg, secret⟩, reg ++ [(queueKey, ⟨cfg, secret⟩)],
        setupTopologySteps cfg)

theorem lookup_append_self {α : Type} (reg : List (String × α)) (k : String)
    (p : α) (h : List.lookup k reg = none) :
    List.lookup k (reg ++ [(k, p)]) = some p := by
  induction reg with
  | nil => simp [List.lookup]
  | cons e rest ih =>
    obtain ⟨k', p'⟩ := e
    simp only [List.lookup, List.cons_append] at h ⊢
    cases hk : (k == k') with
    | true => simp [hk] at h
    | false =>
      simp only [hk] at h ⊢
      exact ih h

/-- C9: for a configured queue key the first `getPublisher` call creates,
registers and returns a publisher after performing topology setup; every
later call returns the identical cached instance, changes nothing and
performs no topology operation; for a key without configuration the call
throws and caches nothing. -/
theorem getPublisher_memoizes
    (queues : String → Option QueueConfig) (secret : String)
    (reg : Registry) (queueKey : String) :
    (∀ p, List.lookup queueKey reg = some p →
      getPublisher queues secret reg queueKey = (.ok p, reg, [])) ∧
    (∀ cfg, List.lookup queueKey reg = none → queues queueKey = some cfg →
      getPublisher queues secret reg queueKey =
        (.ok ⟨cfg, secret⟩, reg ++ [(queueKey, ⟨cfg, secret⟩)],
         setupTopologySteps cfg)) ∧
    (∀ cfg, List.lookup queueKey reg = none → queues queueKey = some cfg →
      getPublisher queues secret
          (getPublisher queues secret reg queueKey).2.1 queueKey =
        (.ok ⟨cfg, secret⟩,
         (getPublisher queues secret reg queueKey).2.1, [])) ∧
    (List.lookup queueKey reg = none → queues queueKey = none →
      getPublisher queues secret reg queueKey =
        (.error "Queue config not found for key: undefined", reg, [])) := by
  refine ⟨?_, ?_, ?_, ?_⟩
  · intro p hp
    simp [getPublisher, hp]
  · intro cfg hnone hcfg
    simp [getPublisher, hnone, hcfg]
  · intro cfg hnone hcfg
    have h1 : getPublisher queues secret reg queueKey =
        (.ok ⟨cfg, secret⟩, reg ++ [(queueKey, ⟨cfg, secret⟩)],
         setupTopologySteps cfg) := by
      simp [getPublisher, hnone, hcfg]
    rw [h1]
    simp only []
    simp [getPublisher, lookup_append_self reg queueKey _ hnone]
  · intro hnone hq
    simp [getPublisher, hnone, hq]

/-- Witness for C9: second lookup of `EMAIL_TASKS` returns the cached
publisher with no topology operations; an unknown key throws. -/
theorem getPublisher_memoizes_witness :
    getPublisher (fun k => if k = "EMAIL_TASKS" then some emailTasksConfig
        else none) "sec"
      (getPublisher (fun k => if k = "EMAIL_TASKS" then some emailTasksConfig
          else none) "sec" [] "EMAIL_TASKS").2.1 "EMAIL_TASKS" =
      (.ok ⟨emailTasksConfig, "sec"⟩,
       (getPublisher (fun k => if k = "EMAIL_TASKS" then some emailTasksConfig
          else none) "sec" [] "EMAIL_TASKS").2.1, []) ∧
    getPublisher (fun k => if k = "EMAIL_TASKS" then some emailTasksConfig
        else none) "sec" [] "UNKNOWN" =
      (.error "Queue config not found for key: undefined", [], []) := by
  constructor
  · exact (getPublisher_memoizes
      (fun k => if k = "EMAIL_TASKS" then some emailTasksConfig else none)
      "sec" [] "EMAIL_TASKS").2.2.1 emailTasksConfig rfl rfl
  · exact (getPublisher_memoizes
      (fun k => if k = "EMAIL_TASKS" then some emailTasksConfig else none)
      "sec" [] "UNKNOWN").2.2.2 rfl rfl

end CommonSvc
